import Mathlib

/-!
# Traffic light message queue and phase controller

A shallow embedding of `src/TrafficLight.cpp`: the blocking `MessageQueue<T>`
(`send`, `receive`) and the `TrafficLight` controller (`waitForGreen`,
`getCurrentPhase`, `cycleThroughPhases`), followed by the properties proved
about them.

Threads are serialised: every method body that runs under a mutex is one atomic
state transformer, and a `receive` whose wait predicate is false is reported as
`suspended` (the caller stays blocked and the queue is untouched). The lock
discipline is studied one level below: the bodies are their statement sequences
with `lock` and `unlock` events, run by a scheduler that interleaves the threads.
-/

namespace TrafficSim

/-! ## Data model -/

/-- Modelled from the spec: the enumeration `TrafficLightPhase` is declared in
`TrafficLight.h`, which is not among the sources; section 3 of the spec gives its
domain as exactly red and green. -/
inductive TrafficLightPhase where
  | red
  | green
  deriving DecidableEq, Repr

/-- Modelled from the spec: the class `MessageQueue<T>` is declared in
`TrafficLight.h`; the only data member the method bodies touch besides the
mutex and the condition variable is `_queue`, an ordered sequence with
`empty`, `back`, `pop_back` and `push_back`. The head of the list is the front
of the sequence. -/
structure MessageQueue (T : Type) where
  _queue : List T
  deriving DecidableEq, Repr

/-- Sequence primitive `empty()`. -/
def empty {T : Type} (s : List T) : Bool := s.isEmpty

/-- Sequence primitive `back()`: the last element; `none` stands for the
undefined behaviour of calling it on an empty sequence. -/
def back {T : Type} (s : List T) : Option T := s.getLast?

/-- Sequence primitive `pop_back()`: drops the last element; `none` stands for
the undefined behaviour of calling it on an empty sequence. -/
def pop_back {T : Type} (s : List T) : Option (List T) :=
  match s with
  | [] => none
  | _ :: _ => some s.dropLast

/-- Sequence primitive `push_back(x)`: appends at the tail. -/
def push_back {T : Type} (s : List T) (x : T) : List T := s ++ [x]

/-- What one scheduling of a `receive` call does, over a receiver state `σ`. -/
inductive ReceiveOutcome (T σ : Type) where
  /-- the wait predicate is false: the caller stays blocked, state untouched -/
  | suspended (s : σ)
  /-- the call returned `msg`, leaving state `s` -/
  | returned (msg : T) (s : σ)
  /-- `back()` or `pop_back()` was executed on an empty sequence -/
  | undefined
  deriving DecidableEq, Repr

/-- Embedding of `MessageQueue<T>::receive` (lines 8-25): under the lock, wait until
`!_queue.empty()`; then move out `_queue.back()`, `pop_back()`, return it. -/
def MessageQueue.receive {T : Type} (q : MessageQueue T) :
    ReceiveOutcome T (MessageQueue T) :=
  if !(empty q._queue) then
    match back q._queue, pop_back q._queue with
    | some msg, some rest => .returned msg { _queue := rest }
    | _, _ => .undefined
  else
    .suspended q

/-- Embedding of `MessageQueue<T>::send` (lines 28-42): under the lock,
`_queue.push_back(std::move(msg))`, then `notify_one()`. -/
def MessageQueue.send {T : Type} (q : MessageQueue T) (msg : T) : MessageQueue T :=
  { _queue := push_back q._queue msg }

/-- A freshly constructed queue (`std::make_shared<MessageQueue<T>>()`). -/
def MessageQueue.new {T : Type} : MessageQueue T := { _queue := [] }

/-- Script `send(v1), ..., send(vn)` issued in order with no interleaved receive. -/
def sendAll {T : Type} (q : MessageQueue T) (vs : List T) : MessageQueue T :=
  vs.foldl MessageQueue.send q

/-- Script of `n` successive `receive()` calls; yields the values in the order they
were returned and the final queue, or `none` when one of the calls does
not return (it is suspended or undefined). -/
def receiveMany {T : Type} : Nat → MessageQueue T → Option (List T × MessageQueue T)
  | 0, q => some ([], q)
  | n + 1, q =>
    match q.receive with
    | .returned msg q1 =>
      match receiveMany n q1 with
      | some (rest, q2) => some (msg :: rest, q2)
      | none => none
    | _ => none

/-- Serialised operations on one queue: a completed `send(v)`, or one scheduling of a
thread that is inside `receive()`. -/
inductive QueueOp (T : Type) where
  | send (v : T)
  | receive
  deriving DecidableEq, Repr

/-- A queue together with the log of what was sent to it and what its receive calls
returned, both in order of occurrence. -/
structure QueueRun (T : Type) where
  queue : MessageQueue T
  sent : List T
  received : List T
  deriving DecidableEq, Repr

/-- Applies one serialised operation; a receive scheduled on an empty queue stays
blocked and changes nothing. -/
def QueueRun.step {T : Type} (r : QueueRun T) : QueueOp T → QueueRun T
  | .send v => { queue := r.queue.send v, sent := r.sent ++ [v], received := r.received }
  | .receive =>
    match r.queue.receive with
    | .returned msg q => { queue := q, sent := r.sent, received := r.received ++ [msg] }
    | _ => r

/-- Runs a finite serialised sequence of operations from the empty queue. -/
def runOps {T : Type} (ops : List (QueueOp T)) : QueueRun T :=
  ops.foldl QueueRun.step { queue := MessageQueue.new, sent := [], received := [] }

/-! ## Phase controller -/

/-- Modelled from the spec: the class `TrafficLight` is declared in `TrafficLight.h`;
the method bodies use its members `_currentPhase` and `_traffic_light_messages` (the
mutex `_mtx` and the thread list carry no data). -/
structure TrafficLight where
  _currentPhase : TrafficLightPhase
  _traffic_light_messages : MessageQueue TrafficLightPhase
  deriving DecidableEq, Repr

/-- Embedding of the constructor `TrafficLight::TrafficLight` (lines 44-48). -/
def TrafficLight.new : TrafficLight :=
  { _currentPhase := .red, _traffic_light_messages := MessageQueue.new }

/-- Embedding of `TrafficLight::getCurrentPhase` (lines 63-67). -/
def TrafficLight.getCurrentPhase (tl : TrafficLight) : TrafficLightPhase :=
  tl._currentPhase

/-- The call `_traffic_light_messages->receive()` seen on the controller state. -/
def TrafficLight.receive (tl : TrafficLight) :
    ReceiveOutcome TrafficLightPhase TrafficLight :=
  match tl._traffic_light_messages.receive with
  | .suspended _ => .suspended tl
  | .returned msg q => .returned msg { tl with _traffic_light_messages := q }
  | .undefined => .undefined

/-- How a `waitForGreen` call stands after a bounded observation. `calls` counts the
receive calls that have returned a value to it. -/
inductive WaitOutcome (σ : Type) where
  /-- the `return` statement was reached -/
  | returned (calls : Nat) (s : σ)
  /-- blocked inside `receive()`: nothing left to take -/
  | suspended (calls : Nat) (s : σ)
  /-- a receive call ran into undefined behaviour -/
  | undefined
  /-- still inside the `while (true)` loop when the observation ended -/
  | unfinished (calls : Nat) (s : σ)
  deriving DecidableEq, Repr

/-- Embedding of the loop of `TrafficLight::waitForGreen` (lines 56-60) over any
`receive`: at most `fuel` iterations of
`phase = receive(); if (phase == green) return;`, with `calls` values already
consumed. -/
def waitForGreenLoop {σ : Type} (receive : σ → ReceiveOutcome TrafficLightPhase σ) :
    Nat → Nat → σ → WaitOutcome σ
  | 0, calls, s => .unfinished calls s
  | fuel + 1, calls, s =>
    match receive s with
    | .suspended s1 => .suspended calls s1
    | .undefined => .undefined
    | .returned phase s1 =>
      if phase = TrafficLightPhase.green then .returned (calls + 1) s1
      else waitForGreenLoop receive fuel (calls + 1) s1

/-- Embedding of `TrafficLight::waitForGreen` (lines 50-61) on the controller's own
queue, observed for at most `fuel` loop iterations with no interleaved send. -/
def TrafficLight.waitForGreen (fuel : Nat) (tl : TrafficLight) : WaitOutcome TrafficLight :=
  waitForGreenLoop TrafficLight.receive fuel 0 tl

/-- A receive whose successive calls yield the values of the given sequence in order
and then block for ever. -/
def scriptedReceive : List TrafficLightPhase →
    ReceiveOutcome TrafficLightPhase (List TrafficLightPhase)
  | [] => .suspended []
  | p :: rest => .returned p rest

/-- Transports the state carried by an outcome along `g`. -/
def WaitOutcome.map {σ τ : Type} (g : σ → τ) : WaitOutcome σ → WaitOutcome τ
  | .returned calls s => .returned calls (g s)
  | .suspended calls s => .suspended calls (g s)
  | .undefined => .undefined
  | .unfinished calls s => .unfinished calls (g s)

/-- A receive whose `i`-th call yields `f i`: an endless sequence of values. -/
def streamReceive (f : Nat → TrafficLightPhase) (i : Nat) :
    ReceiveOutcome TrafficLightPhase Nat :=
  .returned (f i) (i + 1)

/-- Embedding of the loop body of `cycleThroughPhases` from the toggle on
(lines 97-108): toggle `_currentPhase`, then `send` it to `_traffic_light_messages`
and wait for that send to finish. `std::move` of an enumeration value copies it, so
`_currentPhase` keeps the toggled value. The two sleeps do not touch the state. -/
def TrafficLight.cycleThroughPhasesBody (tl : TrafficLight) : TrafficLight :=
  let tl1 : TrafficLight :=
    if tl._currentPhase = TrafficLightPhase.red then
      { tl with _currentPhase := TrafficLightPhase.green }
    else
      { tl with _currentPhase := TrafficLightPhase.red }
  { tl1 with _traffic_light_messages := tl1._traffic_light_messages.send tl1._currentPhase }

/-- Embedding of `TrafficLight::cycleThroughPhases` (lines 84-113): the first `n`
iterations of its `while (true)` loop. -/
def TrafficLight.cycleThroughPhases : Nat → TrafficLight → TrafficLight
  | 0, tl => tl
  | n + 1, tl => TrafficLight.cycleThroughPhases n tl.cycleThroughPhasesBody

/-- The steps of a serialised interleaving: one iteration of the cycling loop, or one
iteration of the loop of some `waitForGreen` call in progress. -/
inductive Event where
  | cycle
  | waitStep
  deriving DecidableEq, Repr

/-- Applies one event; the flag tells whether a `waitForGreen` call returned at this
step. -/
def stepEvent (tl : TrafficLight) : Event → TrafficLight × Bool
  | .cycle => (tl.cycleThroughPhasesBody, false)
  | .waitStep =>
    match tl.waitForGreen 1 with
    | .returned _ tl1 => (tl1, true)
    | .unfinished _ tl1 => (tl1, false)
    | .suspended _ tl1 => (tl1, false)
    | .undefined => (tl, false)

/-- Runs an interleaving from a freshly constructed controller; the flag tells whether
a `waitForGreen` call returned at the last step. -/
def runEvents (evs : List Event) : TrafficLight × Bool :=
  evs.foldl (fun st ev => stepEvent st.1 ev) (TrafficLight.new, false)

/-- The controller after the script `send(red), send(red), send(green)` was issued on
its empty queue. -/
def scriptedLight : TrafficLight :=
  { TrafficLight.new with
    _traffic_light_messages :=
      ((TrafficLight.new._traffic_light_messages.send TrafficLightPhase.red).send
        TrafficLightPhase.red).send TrafficLightPhase.green }

/-! ## Cycle duration -/

/-- The parameters of a `std::uniform_int_distribution<int>(a, b)`. -/
structure uniform_int_distribution where
  a : Int
  b : Int
  deriving DecidableEq, Repr

/-- The values a `std::uniform_int_distribution<int>(a, b)` can produce: the C++
standard library draws integers `i` with `a ≤ i ≤ b`, both ends included. -/
def uniform_int_distribution.produces (D : uniform_int_distribution) (i : Int) : Prop :=
  D.a ≤ i ∧ i ≤ D.b

instance (D : uniform_int_distribution) (i : Int) : Decidable (D.produces i) := by
  unfold uniform_int_distribution.produces
  exact inferInstance

/-- Embedding of line 81: `distribution(4000,6000)`, from which line 94 draws
`duration`. -/
def distribution : uniform_int_distribution := { a := 4000, b := 6000 }

/-! ## Lock discipline -/

/-- The two mutexes: `TrafficLight::_mtx` and `MessageQueue::_mutex`. -/
inductive Mutex where
  | _mtx
  | _mutex
  deriving DecidableEq, Repr

/-- The threads involved: the one running `cycleThroughPhases`, the task started by
`std::async` for `send`, and the callers of the public methods, numbered. -/
inductive Thread where
  | loop
  | task
  | caller (i : Nat)
  deriving DecidableEq, Repr

/-- The statements of the method bodies, as far as locking is concerned. `lock` is the
construction of a `lock_guard` or `unique_lock`; `unlock` is its destruction at the
end of the enclosing block. -/
inductive Instr where
  | lock (t : Thread) (m : Mutex)
  | unlock (t : Thread) (m : Mutex)
  | drawDuration
  | sleepDuration
  | togglePhase
  | launchSend
  | printMessage
  | pushBack
  | notifyOne
  | ftrWait
  | sleepOneMs
  | waitNonEmpty
  | moveBack
  | popBack
  | readPhase
  | testGreen
  deriving DecidableEq, Repr

/-- Statements of `MessageQueue<T>::send` (lines 34-42) run by thread `t`. -/
def sendInstrs (t : Thread) : List Instr :=
  [.lock t ._mutex, .printMessage, .pushBack, .notifyOne, .unlock t ._mutex]

/-- Statements of `MessageQueue<T>::receive` (lines 15-25) run by thread `t`, on a pass
where the wait predicate holds. -/
def receiveInstrs (t : Thread) : List Instr :=
  [.lock t ._mutex, .waitNonEmpty, .moveBack, .popBack, .unlock t ._mutex]

/-- Statements of one iteration of the loop of `waitForGreen` (lines 58-59). -/
def waitForGreenInstrs (t : Thread) : List Instr :=
  receiveInstrs t ++ [.testGreen]

/-- Statements of `getCurrentPhase` (lines 65-67). -/
def getCurrentPhaseInstrs (t : Thread) : List Instr :=
  [.lock t ._mtx, .readPhase, .unlock t ._mtx]

/-- Statements of one iteration of the loop of `cycleThroughPhases` (lines 93-112). The
`lock_guard` on `_mtx` is declared in the loop body at line 98, so it is released
where the body ends, after the 1 ms sleep; `send` runs in the task started by
`std::async` at line 107, which the loop thread waits for at line 108. -/
def cycleThroughPhasesInstrs : List Instr :=
  [.drawDuration, .sleepDuration, .lock .loop ._mtx, .togglePhase, .launchSend]
    ++ sendInstrs .task
    ++ [.ftrWait, .sleepOneMs, .unlock .loop ._mtx]

/-- Who holds each of the two mutexes. -/
structure Held where
  mtx : Option Thread
  mutex : Option Thread
  deriving DecidableEq, Repr

/-- The owner of mutex `m`. -/
def Held.owner (h : Held) : Mutex → Option Thread
  | ._mtx => h.mtx
  | ._mutex => h.mutex

/-- Sets the owner of mutex `m`. -/
def Held.set (h : Held) (m : Mutex) (o : Option Thread) : Held :=
  match m with
  | ._mtx => { h with mtx := o }
  | ._mutex => { h with mutex := o }

/-- Effect of one statement on the lock state; `none` when it cannot proceed (locking a
mutex that is held, unlocking one that the thread does not hold). -/
def Held.after (h : Held) : Instr → Option Held
  | .lock t m => if h.owner m = none then some (h.set m (some t)) else none
  | .unlock t m => if h.owner m = some t then some (h.set m none) else none
  | _ => some h

/-- The calls a caller thread can make, as far as locking goes: `getCurrentPhase`, one
iteration of the loop of `waitForGreen` on which `receive` finds a message, and a pass
through the wait of `receive` on which the predicate is false, so that the condition
variable releases the mutex and the thread sleeps until it is notified. -/
inductive Call where
  | getCurrentPhase
  | waitForGreenStep
  | receiveSuspended
  deriving DecidableEq, Repr

/-- Statements of a pass through `_condition.wait` (line 18) on which the queue is
empty: the mutex taken at line 15 is released while the thread is suspended. -/
def receiveSuspendedInstrs (t : Thread) : List Instr :=
  [.lock t ._mutex, .waitNonEmpty, .unlock t ._mutex]

/-- The statements of a call made by thread `t`. -/
def Call.instrs (t : Thread) : Call → List Instr
  | .getCurrentPhase => getCurrentPhaseInstrs t
  | .waitForGreenStep => waitForGreenInstrs t
  | .receiveSuspended => receiveSuspendedInstrs t

/-- The threads of a running light: the lock state, the statements the cycling thread
(with the task it waits for) still has to run in its current iteration, and for
every caller thread the statements left of the call it is in (none when it is in no
call). -/
structure Config where
  held : Held
  loopRest : List Instr
  callerRest : Nat → List Instr

/-- The scheduler's choices: let the cycling thread (or its task) run its next
statement, let caller `i` run its next statement, or let caller `i` enter a call. -/
inductive Sched where
  | loop
  | caller (i : Nat)
  | call (i : Nat) (k : Call)
  deriving DecidableEq, Repr

/-- One scheduling step. A thread whose next statement cannot proceed (a `lock` of a held
mutex) stays where it is; the cycling thread starts its next iteration when the
current one is finished. -/
def Config.step (c : Config) : Sched → Config
  | .loop =>
    match c.loopRest with
    | [] => { c with loopRest := cycleThroughPhasesInstrs }
    | ins :: rest =>
      match c.held.after ins with
      | some h => { c with held := h, loopRest := rest }
      | none => c
  | .caller i =>
    match c.callerRest i with
    | [] => c
    | ins :: rest =>
      match c.held.after ins with
      | some h => { c with held := h, callerRest := Function.update c.callerRest i rest }
      | none => c
  | .call i k =>
    match c.callerRest i with
    | [] => { c with callerRest := Function.update c.callerRest i (k.instrs (.caller i)) }
    | _ :: _ => c

theorem receive_append {T : Type} (l : List T) (x : T) :
    (MessageQueue.mk (l ++ [x])).receive = .returned x { _queue := l } := by
  have hne : (l ++ [x]).isEmpty = false := by
    cases l <;> rfl
  have hpop : pop_back (l ++ [x]) = some l := by
    have hd : (l ++ [x]).dropLast = l := by simp
    unfold pop_back
    split
    · next h => simp at h
    · rw [hd]
  simp [MessageQueue.receive, empty, hne, back, hpop]

theorem receive_nil {T : Type} :
    (MessageQueue.mk ([] : List T)).receive = .suspended { _queue := [] } := by
  simp [MessageQueue.receive, empty]

theorem sendAll_queue {T : Type} (vs : List T) (q : MessageQueue T) :
    (sendAll q vs)._queue = q._queue ++ vs := by
  induction vs generalizing q with
  | nil => simp [sendAll]
  | cons v vs ih =>
    have : sendAll q (v :: vs) = sendAll (q.send v) vs := rfl
    rw [this, ih]
    simp [MessageQueue.send, push_back]

theorem receiveMany_reverse {T : Type} (l : List T) :
    receiveMany l.length (MessageQueue.mk l.reverse) = some (l, MessageQueue.new) := by
  induction l with
  | nil => rfl
  | cons a l ih =>
    simp only [List.length_cons, List.reverse_cons, receiveMany, receive_append]
    have h := ih
    -- the queue left by the first receive is the reverse of the tail
    show (match receiveMany l.length (MessageQueue.mk l.reverse) with
      | some (rest, q2) => some (a :: rest, q2)
      | none => none) = some (a :: l, MessageQueue.new)
    rw [h]

theorem receive_returned_iff {T : Type} (q : MessageQueue T) (msg : T)
    (rest : MessageQueue T) :
    q.receive = .returned msg rest ↔ q._queue = rest._queue ++ [msg] := by
  obtain ⟨l⟩ := q
  obtain ⟨r⟩ := rest
  rcases List.eq_nil_or_concat l with h | ⟨l1, x, h⟩
  · subst h
    rw [receive_nil]
    simp
  · subst h
    rw [List.concat_eq_append, receive_append]
    constructor
    · intro h
      injection h with h1 h2
      injection h2 with h3
      simp [h1, h3]
    · intro h
      have h2 := List.append_inj_left' h (by simp)
      have h3 := List.append_inj_right' h (by simp)
      simp at h2 h3
      simp [h2, h3]

theorem receive_not_undefined {T : Type} (q : MessageQueue T) :
    q.receive ≠ .undefined := by
  obtain ⟨l⟩ := q
  rcases List.eq_nil_or_concat l with h | ⟨l1, x, h⟩
  · subst h; rw [receive_nil]; simp
  · subst h; rw [List.concat_eq_append, receive_append]; simp

theorem receive_suspended_iff {T : Type} (q : MessageQueue T) :
    q._queue = [] ↔ q.receive = .suspended q := by
  obtain ⟨l⟩ := q
  rcases List.eq_nil_or_concat l with h | ⟨l1, x, h⟩
  · subst h; rw [receive_nil]; simp
  · subst h; rw [List.concat_eq_append, receive_append]; simp

/-! ## Conservation of messages -/

theorem runOps_snoc {T : Type} (ops : List (QueueOp T)) (op : QueueOp T) :
    runOps (ops ++ [op]) = (runOps ops).step op := by
  simp [runOps, List.foldl_append]

theorem step_conserves {T : Type} (r : QueueRun T) (op : QueueOp T)
    (h : (r.received ++ r.queue._queue).Perm r.sent) :
    (((r.step op).received ++ (r.step op).queue._queue).Perm (r.step op).sent) := by
  cases op with
  | send v =>
    simp only [QueueRun.step, MessageQueue.send, push_back]
    rw [← List.append_assoc]
    exact List.Perm.append_right [v] h
  | receive =>
    simp only [QueueRun.step]
    cases hr : r.queue.receive with
    | suspended s => simpa using h
    | undefined => simpa using h
    | returned msg q =>
      have hq := (receive_returned_iff r.queue msg q).1 hr
      simp only
      rw [hq] at h
      refine List.Perm.trans ?_ h
      simp only [List.append_assoc]
      exact List.Perm.append_left r.received List.perm_append_comm

theorem runOps_conserves {T : Type} (ops : List (QueueOp T)) :
    ((runOps ops).received ++ (runOps ops).queue._queue).Perm (runOps ops).sent := by
  induction ops using List.reverseRecOn with
  | nil => simp [runOps, MessageQueue.new]
  | append_singleton ops op ih =>
    rw [runOps_snoc]
    exact step_conserves _ _ ih

theorem runOps_sent {T : Type} (ops : List (QueueOp T)) :
    (runOps ops).sent
      = ops.filterMap (fun op => match op with
          | .send v => some v
          | .receive => none) := by
  induction ops using List.reverseRecOn with
  | nil => simp [runOps]
  | append_singleton ops op ih =>
    rw [runOps_snoc, List.filterMap_append]
    cases op with
    | send v => simp [QueueRun.step, ih]
    | receive =>
      simp only [QueueRun.step]
      cases hr : (runOps ops).queue.receive <;> simp [ih]

/-! ## Phase toggling -/

theorem cycleThroughPhases_succ (n : Nat) (tl : TrafficLight) :
    TrafficLight.cycleThroughPhases (n + 1) tl
      = (TrafficLight.cycleThroughPhases n tl).cycleThroughPhasesBody := by
  induction n generalizing tl with
  | zero => rfl
  | succ n ih =>
    show TrafficLight.cycleThroughPhases (n + 1) tl.cycleThroughPhasesBody = _
    rw [ih]
    rfl

theorem body_phase (tl : TrafficLight) :
    tl.cycleThroughPhasesBody._currentPhase
      = if tl._currentPhase = TrafficLightPhase.red then TrafficLightPhase.green
        else TrafficLightPhase.red := by
  unfold TrafficLight.cycleThroughPhasesBody
  split <;> rfl

theorem body_queue (tl : TrafficLight) :
    tl.cycleThroughPhasesBody._traffic_light_messages._queue
      = tl._traffic_light_messages._queue ++ [tl.cycleThroughPhasesBody._currentPhase] := by
  unfold TrafficLight.cycleThroughPhasesBody
  split <;> rfl

theorem phase_after (n : Nat) :
    (TrafficLight.cycleThroughPhases n TrafficLight.new)._currentPhase
      = if n % 2 = 1 then TrafficLightPhase.green else TrafficLightPhase.red := by
  induction n with
  | zero => rfl
  | succ n ih =>
    rw [cycleThroughPhases_succ, body_phase, ih]
    rcases Nat.mod_two_eq_zero_or_one n with h | h
    · have : (n + 1) % 2 = 1 := by omega
      simp [h, this]
    · have : (n + 1) % 2 = 0 := by omega
      simp [h, this]

theorem queue_after (n : Nat) :
    (TrafficLight.cycleThroughPhases n TrafficLight.new)._traffic_light_messages._queue
      = (List.range n).map (fun i =>
          if (i + 1) % 2 = 1 then TrafficLightPhase.green else TrafficLightPhase.red) := by
  induction n with
  | zero => rfl
  | succ n ih =>
    rw [cycleThroughPhases_succ, body_queue, ih, ← cycleThroughPhases_succ, phase_after,
      List.range_succ, List.map_append]
    rfl

/-! ## The waitForGreen loop -/

theorem phase_ne_green (p : TrafficLightPhase) :
    p ≠ TrafficLightPhase.green ↔ p = TrafficLightPhase.red := by
  cases p <;> simp

theorem loop_scripted_returns (reds rest : List TrafficLightPhase)
    (hred : ∀ p ∈ reds, p = TrafficLightPhase.red) (fuel calls : Nat)
    (hf : reds.length < fuel) :
    waitForGreenLoop scriptedReceive fuel calls (reds ++ TrafficLightPhase.green :: rest)
      = .returned (calls + reds.length + 1) rest := by
  induction reds generalizing fuel calls with
  | nil =>
    obtain ⟨f, rfl⟩ : ∃ f, fuel = f + 1 := ⟨fuel - 1, by simp at hf; omega⟩
    simp [waitForGreenLoop, scriptedReceive]
  | cons p reds ih =>
    obtain ⟨f, rfl⟩ : ∃ f, fuel = f + 1 := ⟨fuel - 1, by simp at hf; omega⟩
    have hp : p = TrafficLightPhase.red := hred p (by simp)
    subst hp
    have hrest : ∀ q ∈ reds, q = TrafficLightPhase.red :=
      fun q hq => hred q (List.mem_cons_of_mem _ hq)
    have hlen : reds.length < f := by simp at hf; omega
    simp only [List.cons_append, waitForGreenLoop, scriptedReceive]
    rw [if_neg (by decide), ih hrest f (calls + 1) hlen]
    simp only [List.length_cons]
    congr 1
    omega

theorem loop_scripted_returned_inv (fuel : Nat) (ys : List TrafficLightPhase)
    (calls n : Nat) (rest : List TrafficLightPhase)
    (h : waitForGreenLoop scriptedReceive fuel calls ys = .returned n rest) :
    ∃ reds, ys = reds ++ TrafficLightPhase.green :: rest
      ∧ (∀ p ∈ reds, p = TrafficLightPhase.red)
      ∧ n = calls + reds.length + 1 ∧ reds.length < fuel := by
  induction fuel generalizing ys calls with
  | zero => simp [waitForGreenLoop] at h
  | succ f ih =>
    cases ys with
    | nil => simp [waitForGreenLoop, scriptedReceive] at h
    | cons p ys =>
      simp only [waitForGreenLoop, scriptedReceive] at h
      by_cases hp : p = TrafficLightPhase.green
      · rw [if_pos hp] at h
        injection h with h1 h2
        refine ⟨[], ?_, by simp, ?_, by simp⟩
        · simp [hp, h2]
        · simp [← h1]
      · rw [if_neg hp] at h
        obtain ⟨reds, hys, hred, hn, hlen⟩ := ih ys (calls + 1) h
        refine ⟨p :: reds, ?_, ?_, ?_, ?_⟩
        · simp [hys]
        · intro q hq
          rcases List.mem_cons.1 hq with hq | hq
          · rw [hq]; exact (phase_ne_green p).1 hp
          · exact hred q hq
        · simp only [List.length_cons]; omega
        · simp only [List.length_cons]; omega

theorem loop_scripted_no_green (ys : List TrafficLightPhase)
    (h : TrafficLightPhase.green ∉ ys) (fuel calls : Nat) (hf : ys.length < fuel) :
    waitForGreenLoop scriptedReceive fuel calls ys = .suspended (calls + ys.length) [] := by
  induction ys generalizing fuel calls with
  | nil =>
    obtain ⟨f, rfl⟩ : ∃ f, fuel = f + 1 := ⟨fuel - 1, by simp at hf; omega⟩
    simp [waitForGreenLoop, scriptedReceive]
  | cons p ys ih =>
    obtain ⟨f, rfl⟩ : ∃ f, fuel = f + 1 := ⟨fuel - 1, by simp at hf; omega⟩
    have hp : p ≠ TrafficLightPhase.green := fun e => h (by simp [e])
    have hys : TrafficLightPhase.green ∉ ys := fun e => h (List.mem_cons_of_mem _ e)
    have hlen : ys.length < f := by simp at hf; omega
    simp only [waitForGreenLoop, scriptedReceive]
    rw [if_neg hp, ih hys f (calls + 1) hlen]
    simp only [List.length_cons]
    congr 1
    omega

theorem loop_stream_no_green (f : Nat → TrafficLightPhase)
    (h : ∀ i, f i ≠ TrafficLightPhase.green) (fuel calls i : Nat) :
    waitForGreenLoop (streamReceive f) fuel calls i
      = .unfinished (calls + fuel) (i + fuel) := by
  induction fuel generalizing calls i with
  | zero => simp [waitForGreenLoop]
  | succ n ih =>
    simp only [waitForGreenLoop, streamReceive]
    rw [if_neg (h i), ih]
    congr 1 <;> omega

theorem waitForGreen_on_queue (fuel calls : Nat) (p : TrafficLightPhase)
    (l : List TrafficLightPhase) :
    waitForGreenLoop TrafficLight.receive fuel calls
        { _currentPhase := p, _traffic_light_messages := { _queue := l } }
      = (waitForGreenLoop scriptedReceive fuel calls l.reverse).map
          (fun rest => { _currentPhase := p,
                         _traffic_light_messages := { _queue := rest.reverse } }) := by
  induction fuel generalizing calls l with
  | zero => simp [waitForGreenLoop, WaitOutcome.map]
  | succ n ih =>
    rcases List.eq_nil_or_concat l with h | ⟨l1, x, h⟩
    · subst h
      simp [waitForGreenLoop, TrafficLight.receive, receive_nil, scriptedReceive,
        WaitOutcome.map]
    · subst h
      rw [List.concat_eq_append, List.reverse_append]
      simp only [List.reverse_cons, List.reverse_nil, List.nil_append, List.singleton_append,
        waitForGreenLoop, TrafficLight.receive, receive_append, scriptedReceive]
      by_cases hx : x = TrafficLightPhase.green
      · simp [hx, WaitOutcome.map]
      · simp only [hx, if_false]
        exact ih (calls + 1) l1

/-! ## Interleavings of the cycling loop and waitForGreen -/

theorem runEvents_snoc (evs : List Event) (ev : Event) :
    runEvents (evs ++ [ev]) = stepEvent (runEvents evs).1 ev := by
  simp [runEvents, List.foldl_append]

theorem light_receive_returned (tl tl1 : TrafficLight) (msg : TrafficLightPhase)
    (h : tl.receive = .returned msg tl1) :
    tl._traffic_light_messages._queue = tl1._traffic_light_messages._queue ++ [msg]
    ∧ tl1._currentPhase = tl._currentPhase := by
  unfold TrafficLight.receive at h
  cases hr : tl._traffic_light_messages.receive with
  | suspended q => rw [hr] at h; simp at h
  | undefined => rw [hr] at h; simp at h
  | returned m q =>
    rw [hr] at h
    simp only [ReceiveOutcome.returned.injEq] at h
    obtain ⟨h1, h2⟩ := h
    subst h1
    subst h2
    exact ⟨(receive_returned_iff _ _ _).1 hr, rfl⟩

theorem light_receive_suspended (tl tl1 : TrafficLight)
    (h : tl.receive = .suspended tl1) : tl1 = tl := by
  unfold TrafficLight.receive at h
  cases hr : tl._traffic_light_messages.receive with
  | suspended q => rw [hr] at h; simp at h; exact h.symm
  | undefined => rw [hr] at h; simp at h
  | returned m q => rw [hr] at h; simp at h

theorem stepEvent_waitStep (tl : TrafficLight) :
    stepEvent tl Event.waitStep
      = match tl.receive with
        | .returned phase tl1 => (tl1, decide (phase = TrafficLightPhase.green))
        | _ => (tl, false) := by
  unfold stepEvent TrafficLight.waitForGreen
  simp only [waitForGreenLoop]
  cases hr : tl.receive with
  | suspended tl1 =>
    have := light_receive_suspended tl tl1 hr
    simp [this]
  | undefined => simp
  | returned phase tl1 =>
    by_cases hp : phase = TrafficLightPhase.green
    · simp [hp]
    · simp [hp]

theorem stepEvent_waitStep_phase (tl : TrafficLight) :
    (stepEvent tl Event.waitStep).1._currentPhase = tl._currentPhase := by
  rw [stepEvent_waitStep]
  cases hr : tl.receive with
  | suspended tl1 => rfl
  | undefined => rfl
  | returned phase tl1 => exact (light_receive_returned tl tl1 phase hr).2

theorem stepEvent_waitStep_true (tl tl1 : TrafficLight)
    (h : stepEvent tl Event.waitStep = (tl1, true)) :
    tl.receive = .returned TrafficLightPhase.green tl1 := by
  rw [stepEvent_waitStep] at h
  cases hr : tl.receive with
  | suspended s => rw [hr] at h; simp at h
  | undefined => rw [hr] at h; simp at h
  | returned phase s =>
    rw [hr] at h
    simp only [Prod.mk.injEq, decide_eq_true_eq] at h
    rw [h.1, h.2]

theorem events_phase (evs : List Event) :
    (runEvents evs).1._currentPhase
      = if evs.count Event.cycle % 2 = 1 then TrafficLightPhase.green
        else TrafficLightPhase.red := by
  induction evs using List.reverseRecOn with
  | nil => rfl
  | append_singleton evs ev ih =>
    rw [runEvents_snoc, List.count_append]
    cases ev with
    | cycle =>
      show (runEvents evs).1.cycleThroughPhasesBody._currentPhase = _
      rw [body_phase, ih]
      have hc : List.count Event.cycle [Event.cycle] = 1 := by decide
      rw [hc]
      rcases Nat.mod_two_eq_zero_or_one (evs.count Event.cycle) with h | h
      · have : (evs.count Event.cycle + 1) % 2 = 1 := by omega
        simp [h, this]
      · have : (evs.count Event.cycle + 1) % 2 = 0 := by omega
        simp [h, this]
    | waitStep =>
      rw [stepEvent_waitStep_phase, ih]
      have hc : List.count Event.cycle [Event.waitStep] = 0 := by decide
      rw [hc, Nat.add_zero]

theorem events_queue_length (evs : List Event) :
    (runEvents evs).1._traffic_light_messages._queue.length ≤ evs.count Event.cycle := by
  induction evs using List.reverseRecOn with
  | nil => simp [runEvents, TrafficLight.new, MessageQueue.new]
  | append_singleton evs ev ih =>
    rw [runEvents_snoc, List.count_append]
    cases ev with
    | cycle =>
      show (runEvents evs).1.cycleThroughPhasesBody._traffic_light_messages._queue.length ≤ _
      rw [body_queue]
      have hc : List.count Event.cycle [Event.cycle] = 1 := by decide
      rw [hc, List.length_append]
      simp only [List.length_singleton]
      omega
    | waitStep =>
      rw [stepEvent_waitStep]
      cases hr : (runEvents evs).1.receive with
      | suspended tl1 => simp only; omega
      | undefined => simp only; omega
      | returned phase tl1 =>
        have := (light_receive_returned _ tl1 phase hr).1
        rw [this, List.length_append] at ih
        simp only
        omega

theorem receive_after_body (tl : TrafficLight) :
    ∃ tl1, tl.cycleThroughPhasesBody.receive
      = .returned tl.cycleThroughPhasesBody._currentPhase tl1 := by
  have hq := body_queue tl
  unfold TrafficLight.receive
  have : tl.cycleThroughPhasesBody._traffic_light_messages
      = MessageQueue.mk (tl._traffic_light_messages._queue
          ++ [tl.cycleThroughPhasesBody._currentPhase]) := by
    cases h : tl.cycleThroughPhasesBody._traffic_light_messages with
    | mk l => rw [h] at hq; simp at hq; rw [hq]
  rw [this, receive_append]
  exact ⟨_, rfl⟩

/-! ## Lock discipline over all interleavings -/

/-- C1: for every list of values, sending them in order to an empty queue and then
calling receive as many times returns the values in reverse order of insertion, and
the queue is empty afterwards. -/
theorem C1_send_then_receive_is_lifo {T : Type} (vs : List T) :
    receiveMany vs.length (sendAll MessageQueue.new vs)
      = some (vs.reverse, MessageQueue.new) := by
  have hq : sendAll (MessageQueue.new : MessageQueue T) vs = MessageQueue.mk vs := by
    have := sendAll_queue vs (MessageQueue.new : MessageQueue T)
    cases h : sendAll (MessageQueue.new : MessageQueue T) vs with
    | mk l => rw [h] at this; simp [MessageQueue.new] at this; rw [this]
  rw [hq]
  have := receiveMany_reverse vs.reverse
  simpa using this

/-- C8: receive yields a value exactly when the queue is non-empty. On an empty queue
it is suspended and leaves the queue unchanged; it never runs back or pop_back on an
empty sequence; on a non-empty queue it returns the last element and leaves exactly
the preceding elements in their order. -/
theorem C8_receive_iff_nonempty {T : Type} (q : MessageQueue T) :
    q.receive ≠ .undefined
    ∧ (q._queue = [] ↔ q.receive = .suspended q)
    ∧ (q._queue ≠ [] ↔ ∃ msg rest, q.receive = .returned msg rest)
    ∧ (∀ msg rest, q.receive = .returned msg rest ↔ q._queue = rest._queue ++ [msg]) := by
  refine ⟨receive_not_undefined q, receive_suspended_iff q, ?_, receive_returned_iff q⟩
  constructor
  · intro hne
    rcases List.eq_nil_or_concat q._queue with h | ⟨l1, x, h⟩
    · exact absurd h hne
    · refine ⟨x, { _queue := l1 }, ?_⟩
      rw [receive_returned_iff, h, List.concat_eq_append]
  · rintro ⟨msg, rest, h⟩
    rw [receive_returned_iff] at h
    rw [h]
    simp

/-- C5: for every finite serialised sequence of send and receive operations on a queue
that starts empty, the values returned by receive calls together with the values still
queued are, as multisets, exactly the values sent; so the returned values form a
sub-multiset of the sent ones, and when the sent values are pairwise distinct no value
is returned twice. -/
theorem C5_no_loss_no_duplication {T : Type} (ops : List (QueueOp T)) :
    (runOps ops).sent
        = ops.filterMap (fun op => match op with
            | .send v => some v
            | .receive => none)
    ∧ (Multiset.ofList (runOps ops).received + Multiset.ofList (runOps ops).queue._queue
        = Multiset.ofList (runOps ops).sent)
    ∧ Multiset.ofList (runOps ops).received ≤ Multiset.ofList (runOps ops).sent
    ∧ ((runOps ops).sent.Nodup → (runOps ops).received.Nodup) := by
  have hperm := runOps_conserves ops
  have hsub : ((runOps ops).received).Sublist
      ((runOps ops).received ++ (runOps ops).queue._queue) :=
    List.sublist_append_left _ _
  refine ⟨runOps_sent ops, ?_, ?_, ?_⟩
  · rw [Multiset.coe_add]
    exact Multiset.coe_eq_coe.2 hperm
  · exact Multiset.coe_le.2 (List.Sublist.subperm hsub |>.trans hperm.subperm)
  · intro hnd
    exact (hperm.nodup_iff.2 hnd).sublist hsub

/-- Witness for C5 on the sequence send 1, send 2, receive, send 3. -/
theorem C5_no_loss_no_duplication_witness :
    (runOps [QueueOp.send 1, .send 2, .receive, .send 3]).sent = [1, 2, 3]
    ∧ (runOps [QueueOp.send 1, .send 2, .receive, .send 3]).received = [2]
    ∧ (runOps [QueueOp.send 1, .send 2, .receive, .send 3]).received.Nodup :=
  ⟨by decide, by decide,
    (C5_no_loss_no_duplication [QueueOp.send 1, .send 2, .receive, .send 3]).2.2.2
      (by decide)⟩

/-! ## Claims about the phase controller -/

/-- C6: starting from a freshly constructed light (phase red), for every n from 1 on the
n-th toggle of the cycling loop leaves the current phase green when n is odd and red
when n is even, and the phase is never anything but red or green. -/
theorem C6_toggles_alternate (n : Nat) (_hn : 1 ≤ n) :
    (TrafficLight.cycleThroughPhases n TrafficLight.new).getCurrentPhase
        = (if n % 2 = 1 then TrafficLightPhase.green else TrafficLightPhase.red)
    ∧ ((TrafficLight.cycleThroughPhases n TrafficLight.new).getCurrentPhase
          = TrafficLightPhase.red
        ∨ (TrafficLight.cycleThroughPhases n TrafficLight.new).getCurrentPhase
          = TrafficLightPhase.green) := by
  refine ⟨phase_after n, ?_⟩
  cases hp : (TrafficLight.cycleThroughPhases n TrafficLight.new).getCurrentPhase
  · exact Or.inl rfl
  · exact Or.inr rfl

/-- Witness for C6 at the third toggle. -/
theorem C6_toggles_alternate_witness :
    1 ≤ 3
    ∧ (TrafficLight.cycleThroughPhases 3 TrafficLight.new).getCurrentPhase
        = TrafficLightPhase.green :=
  ⟨by decide, (C6_toggles_alternate 3 (by decide)).1⟩

/-- C9: for every k from 1 on, after k iterations of the cycling loop on a freshly
constructed light with no receive in between, the queue holds exactly k values, the
i-th of them being the phase produced by the i-th toggle (green, red, green, ...), and
the current phase equals the last value in the queue. -/
theorem C9_iterations_publish_new_phase (k : Nat) (hk : 1 ≤ k) :
    (TrafficLight.cycleThroughPhases k TrafficLight.new)._traffic_light_messages._queue.length
        = k
    ∧ (∀ i, i < k →
        (TrafficLight.cycleThroughPhases k TrafficLight.new)._traffic_light_messages._queue[i]?
          = some (TrafficLight.cycleThroughPhases (i + 1) TrafficLight.new).getCurrentPhase)
    ∧ (∀ i, i < k →
        (TrafficLight.cycleThroughPhases k TrafficLight.new)._traffic_light_messages._queue[i]?
          = some (if i % 2 = 0 then TrafficLightPhase.green else TrafficLightPhase.red))
    ∧ back (TrafficLight.cycleThroughPhases k TrafficLight.new)._traffic_light_messages._queue
        = some (TrafficLight.cycleThroughPhases k TrafficLight.new).getCurrentPhase := by
  obtain ⟨m, rfl⟩ : ∃ m, k = m + 1 := ⟨k - 1, by omega⟩
  refine ⟨?_, ?_, ?_, ?_⟩
  · rw [queue_after]; simp
  · intro i hi
    rw [queue_after, TrafficLight.getCurrentPhase, phase_after]
    simp [hi]
  · intro i hi
    rw [queue_after]
    have : (if (i + 1) % 2 = 1 then TrafficLightPhase.green else TrafficLightPhase.red)
        = if i % 2 = 0 then TrafficLightPhase.green else TrafficLightPhase.red := by
      rcases Nat.mod_two_eq_zero_or_one i with h | h
      · have : (i + 1) % 2 = 1 := by omega
        simp [h, this]
      · have : (i + 1) % 2 = 0 := by omega
        simp [h, this]
    simp [hi, this]
  · rw [cycleThroughPhases_succ, body_queue, TrafficLight.getCurrentPhase]
    simp [back]

/-- Witness for C9 after three iterations. -/
theorem C9_iterations_publish_new_phase_witness :
    1 ≤ 3
    ∧ (TrafficLight.cycleThroughPhases 3 TrafficLight.new)._traffic_light_messages._queue.length
        = 3 :=
  ⟨by decide, (C9_iterations_publish_new_phase 3 (by decide)).1⟩

/-- C2: for every sequence of phase values that successive receive calls yield and
every observation length, waitForGreen returns after n receive calls exactly when the
n-th value is the first green one (all values consumed before it are red, and they are
discarded); when the sequence holds no green it never returns: after consuming every
value it stays suspended in receive, and on an endless sequence without green it is
still looping after any number of iterations. On the controller's own queue with no
interleaved send, the sequence yielded is the queue content read from its back. -/
theorem C2_waitForGreen_returns_at_first_green (ys : List TrafficLightPhase)
    (fuel : Nat) :
    (∀ n rest, waitForGreenLoop scriptedReceive fuel 0 ys = .returned n rest ↔
        (n ≤ fuel ∧ ∃ reds, ys = reds ++ TrafficLightPhase.green :: rest
          ∧ (∀ p ∈ reds, p = TrafficLightPhase.red) ∧ n = reds.length + 1))
    ∧ (TrafficLightPhase.green ∉ ys → ys.length < fuel →
        waitForGreenLoop scriptedReceive fuel 0 ys = .suspended ys.length [])
    ∧ (∀ f : Nat → TrafficLightPhase, (∀ i, f i ≠ TrafficLightPhase.green) →
        waitForGreenLoop (streamReceive f) fuel 0 0 = .unfinished fuel fuel)
    ∧ (∀ p : TrafficLightPhase,
        TrafficLight.waitForGreen fuel
            { _currentPhase := p, _traffic_light_messages := { _queue := ys.reverse } }
          = (waitForGreenLoop scriptedReceive fuel 0 ys).map
              (fun rest => { _currentPhase := p,
                             _traffic_light_messages := { _queue := rest.reverse } })) := by
  refine ⟨?_, ?_, ?_, ?_⟩
  rotate_right
  · intro p
    have := waitForGreen_on_queue fuel 0 p ys.reverse
    rw [List.reverse_reverse] at this
    exact this
  · intro n rest
    constructor
    · intro h
      obtain ⟨reds, hys, hred, hn, hlen⟩ := loop_scripted_returned_inv fuel ys 0 n rest h
      exact ⟨by omega, reds, hys, hred, by omega⟩
    · rintro ⟨hle, reds, hys, hred, hn⟩
      rw [hys, loop_scripted_returns reds rest hred fuel 0 (by omega)]
      congr 1
      omega
  · intro hg hf
    rw [loop_scripted_no_green ys hg fuel 0 hf]
    simp
  · intro f hf
    rw [loop_stream_no_green f hf fuel 0 0]
    simp

/-- Witness for C2 on the sequence red, red, green, red. -/
theorem C2_waitForGreen_returns_at_first_green_witness :
    waitForGreenLoop scriptedReceive 5 0
        [TrafficLightPhase.red, TrafficLightPhase.red, TrafficLightPhase.green,
          TrafficLightPhase.red]
      = .returned 3 [TrafficLightPhase.red] :=
  ((C2_waitForGreen_returns_at_first_green
      [TrafficLightPhase.red, TrafficLightPhase.red, TrafficLightPhase.green,
        TrafficLightPhase.red] 5).1 3 [TrafficLightPhase.red]).2
    ⟨by decide, [TrafficLightPhase.red, TrafficLightPhase.red], rfl, by decide, rfl⟩

/-- C4, as the code behaves: for every observation of at least one loop iteration,
waitForGreen called after the script send(red), send(red), send(green) never returns
after 3 receive calls. -/
theorem C4_scripted_not_three_receives :
    ¬ ∃ fuel tl, scriptedLight.waitForGreen fuel = .returned 3 tl := by
  rintro ⟨fuel, tl, h⟩
  cases fuel with
  | zero => simp [TrafficLight.waitForGreen, waitForGreenLoop] at h
  | succ f =>
    have h1 : scriptedLight.waitForGreen (f + 1)
        = .returned 1 { _currentPhase := TrafficLightPhase.red,
                        _traffic_light_messages :=
                          { _queue := [TrafficLightPhase.red, TrafficLightPhase.red] } } := rfl
    rw [h1] at h
    injection h with h2 h3
    exact absurd h2 (by decide)

/-- C4 amended: after the script send(red), send(red), send(green) on the empty queue,
waitForGreen makes exactly 1 receive call before it returns; it consumes only the green
value that was sent last and leaves the two red values in the queue. -/
theorem C4_scripted_one_receive (fuel : Nat) (hf : 1 ≤ fuel) :
    scriptedLight.waitForGreen fuel
      = .returned 1 { _currentPhase := TrafficLightPhase.red,
                      _traffic_light_messages :=
                        { _queue := [TrafficLightPhase.red, TrafficLightPhase.red] } } := by
  obtain ⟨f, rfl⟩ : ∃ f, fuel = f + 1 := ⟨fuel - 1, by omega⟩
  rfl

/-- Witness for the amended C4 with an observation of three loop iterations. -/
theorem C4_scripted_one_receive_witness :
    1 ≤ 3
    ∧ scriptedLight.waitForGreen 3
      = .returned 1 { _currentPhase := TrafficLightPhase.red,
                      _traffic_light_messages :=
                        { _queue := [TrafficLightPhase.red, TrafficLightPhase.red] } } :=
  ⟨by decide, C4_scripted_one_receive 3 (by decide)⟩

/-! ## Claims about the cycle duration -/

/-- C7, as the code behaves: the distribution constructed as distribution(4000,6000) can
produce 6000, which is not below 6000; every value it can produce lies in the closed
interval from 4000 to 6000. -/
theorem C7_distribution_reaches_6000 :
    distribution.produces 6000
    ∧ ¬ (∀ d, distribution.produces d → 4000 ≤ d ∧ d < 6000)
    ∧ (∀ d, distribution.produces d → 4000 ≤ d ∧ d ≤ 6000) := by
  refine ⟨by decide, ?_, ?_⟩
  · intro h
    have := (h 6000 (by decide)).2
    omega
  · intro d hd
    exact hd

/-! ## Claims about interleavings -/

/-- C3, as the code behaves: after two iterations of the cycling loop the queue holds
green then red; the second loop step of a waitForGreen call takes the buffered green and
the call returns while the current phase is red. -/
theorem C3_returns_while_phase_red :
    (runEvents [Event.cycle, Event.cycle, Event.waitStep, Event.waitStep]).2 = true
    ∧ (runEvents [Event.cycle, Event.cycle, Event.waitStep, Event.waitStep]).1.getCurrentPhase
        = TrafficLightPhase.red
    ∧ ¬ (∀ evs, (runEvents evs).2 = true →
          (runEvents evs).1.getCurrentPhase = TrafficLightPhase.green) := by
  refine ⟨by decide, by decide, ?_⟩
  intro h
  have := h [Event.cycle, Event.cycle, Event.waitStep, Event.waitStep] (by decide)
  exact absurd this (by decide)

/-- C3 amended: for every serialised interleaving of cycling-loop iterations and loop
steps of waitForGreen calls that starts from a freshly constructed light, at a step
where a waitForGreen call returns the value that call just received is green and at
least one iteration has run before; the current phase at that step is green exactly when
an odd number of iterations has run so far, which is the case whenever the returning
step directly follows an iteration. -/
theorem C3_return_means_green_received (evs : List Event)
    (h : (runEvents evs).2 = true) :
    (∃ pre, evs = pre ++ [Event.waitStep]
        ∧ (runEvents pre).1.receive = .returned TrafficLightPhase.green (runEvents evs).1)
    ∧ Event.cycle ∈ evs
    ∧ ((runEvents evs).1.getCurrentPhase = TrafficLightPhase.green
        ↔ evs.count Event.cycle % 2 = 1)
    ∧ (∀ pre, evs = pre ++ [Event.cycle, Event.waitStep] →
        (runEvents evs).1.getCurrentPhase = TrafficLightPhase.green) := by
  have hphase := events_phase evs
  have hiff : (runEvents evs).1.getCurrentPhase = TrafficLightPhase.green
      ↔ evs.count Event.cycle % 2 = 1 := by
    unfold TrafficLight.getCurrentPhase
    rw [hphase]
    by_cases hc : evs.count Event.cycle % 2 = 1 <;> simp [hc]
  have hrecv : ∃ pre, evs = pre ++ [Event.waitStep]
      ∧ (runEvents pre).1.receive
          = .returned TrafficLightPhase.green (runEvents evs).1 := by
    rcases List.eq_nil_or_concat evs with hnil | ⟨pre, ev, hev⟩
    · subst hnil
      simp [runEvents] at h
    · rw [List.concat_eq_append] at hev
      subst hev
      rw [runEvents_snoc] at h
      cases ev with
      | cycle => simp [stepEvent] at h
      | waitStep =>
        refine ⟨pre, rfl, ?_⟩
        rw [runEvents_snoc]
        exact stepEvent_waitStep_true _ _ (Prod.ext rfl h)
  refine ⟨hrecv, ?_, hiff, ?_⟩
  · obtain ⟨pre, hev, hr⟩ := hrecv
    have hq := (light_receive_returned _ _ _ hr).1
    have hlen := events_queue_length pre
    rw [hq, List.length_append] at hlen
    simp only [List.length_singleton] at hlen
    have hpos : 0 < pre.count Event.cycle := by omega
    rw [hev]
    exact List.mem_append_left _ (List.count_pos_iff.1 hpos)
  · intro pre hev
    have hsplit : pre ++ [Event.cycle, Event.waitStep]
        = (pre ++ [Event.cycle]) ++ [Event.waitStep] := by simp
    subst hev
    rw [hsplit] at h ⊢
    rw [runEvents_snoc] at h ⊢
    have hb : (runEvents (pre ++ [Event.cycle])).1
        = (runEvents pre).1.cycleThroughPhasesBody := by
      rw [runEvents_snoc]; rfl
    rw [hb] at h ⊢
    obtain ⟨tl1, hr⟩ := receive_after_body (runEvents pre).1
    rw [stepEvent_waitStep, hr] at h
    simp only [decide_eq_true_eq] at h
    unfold TrafficLight.getCurrentPhase
    rw [stepEvent_waitStep_phase]
    exact h

/-- Witness for the amended C3 on one iteration followed by one waitForGreen step. -/
theorem C3_return_means_green_received_witness :
    (runEvents [Event.cycle, Event.waitStep]).2 = true
    ∧ (runEvents [Event.cycle, Event.waitStep]).1.getCurrentPhase
        = TrafficLightPhase.green :=
  ⟨by decide,
    (C3_return_means_green_received [Event.cycle, Event.waitStep] (by decide)).2.2.2
      [] rfl⟩

/-! ## Claims about the locks -/

end TrafficSim
